import Mathlib

/-!
Verification of the soundfontutils SF2/YAML codec against its specification.

The definitions below are a shallow embedding of the JavaScript sources
(src/SF2.js, src/sf2toyaml.js, src/yamltosf2.js and the unnamed current
variant of the YAML generator).  Byte buffers are modelled as lists of
natural numbers (each entry one byte, or one 16-bit sample point where
noted); Node.js buffer reads are modelled by total functions that default
to 0 out of range (all uses below stay in range, mirroring the sources).
-/

/-! ## Byte-level primitives (Node.js Buffer read/write helpers) -/

/-- One byte of a buffer, as read by Buffer.readUInt8. -/
def u8 (b : List Nat) (pos : Nat) : Nat := b.getD pos 0

/-- Signed reinterpretation of one byte (Buffer.readInt8). -/
def i8val (x : Nat) : Int := if x < 128 then (x : Int) else (x : Int) - 256

/-- Signed reinterpretation of a 16-bit value (Buffer.readInt16LE). -/
def i16val (x : Nat) : Int := if x < 32768 then (x : Int) else (x : Int) - 65536

def readInt8 (b : List Nat) (pos : Nat) : Int := i8val (u8 b pos)

/-- Little-endian decode of (up to) two bytes. -/
def decode2 (l : List Nat) : Nat := l.getD 0 0 + 256 * l.getD 1 0

/-- Little-endian decode of (up to) four bytes. -/
def decode4 (l : List Nat) : Nat :=
  l.getD 0 0 + 256 * l.getD 1 0 + 65536 * l.getD 2 0 + 16777216 * l.getD 3 0

def readUInt16LE (b : List Nat) (pos : Nat) : Nat := decode2 ((b.drop pos).take 2)

def readInt16LE (b : List Nat) (pos : Nat) : Int := i16val (readUInt16LE b pos)

def readUInt32LE (b : List Nat) (pos : Nat) : Nat := decode4 ((b.drop pos).take 4)

/-- Little-endian encode of a 32-bit value (Buffer.writeUInt32LE). -/
def u32le (n : Nat) : List Nat :=
  [n % 256, n / 256 % 256, n / 65536 % 256, n / 16777216 % 256]

/-- Two-complement byte encode of a signed value (Buffer.writeInt8). -/
def u8enc (i : Int) : Nat := (i % 256).toNat

/-- Remove the maximal trailing run of byte c (used by the sources through
String.replace with anchored regular expressions). -/
def dropTrailing (c : Nat) (l : List Nat) : List Nat :=
  (l.reverse.dropWhile (· == c)).reverse

theorem dropTrailing_append (c : Nat) (l : List Nat) :
    dropTrailing c l ++
      List.replicate (l.length - (dropTrailing c l).length) c = l := by
  unfold dropTrailing
  set r := l.reverse with hr
  have hsplit : r.takeWhile (· == c) ++ r.dropWhile (· == c) = r :=
    List.takeWhile_append_dropWhile (· == c) r
  have hrep : r.takeWhile (· == c) =
      List.replicate (r.takeWhile (· == c)).length c := by
    apply List.eq_replicate_of_mem
    intro x hx
    simpa using List.mem_takeWhile_imp hx
  have hlenadd : (r.takeWhile (· == c)).length +
      (r.dropWhile (· == c)).length = l.length := by
    have h := congrArg List.length hsplit
    rw [List.length_append] at h
    simpa [hr] using h
  have hlen : l.length - ((r.dropWhile (· == c)).reverse).length =
      (r.takeWhile (· == c)).length := by
    rw [List.length_reverse]; omega
  rw [hlen]
  have hrev : List.replicate (r.takeWhile (· == c)).length c =
      (r.takeWhile (· == c)).reverse := by
    conv_rhs => rw [hrep]
    simp
  rw [hrev, ← List.reverse_append, hsplit, hr, List.reverse_reverse]

theorem dropTrailing_length_le (c : Nat) (l : List Nat) :
    (dropTrailing c l).length ≤ l.length := by
  conv_rhs => rw [← dropTrailing_append c l]
  simp

/-! ## Record table codec (SF2.js class RecordLayout)

The a2 decoder reads the same four bytes three ways at once: as a pair of
signed bytes, as a signed 16-bit value and as an unsigned 16-bit value. -/

structure Amount where
  rangeLo : Int
  rangeHi : Int
  shAmount : Int
  wAmount : Nat
  deriving Repr, DecidableEq

def a2 (b : List Nat) (pos : Nat) : Amount :=
  { rangeLo := readInt8 b pos
    rangeHi := readInt8 b (pos + 1)
    shAmount := readInt16LE b pos
    wAmount := readUInt16LE b pos }

/-- Fixed 20-byte text field decoder (RecordLayout.z20): the source takes the
20 raw bytes and strips the maximal trailing run of zero bytes, in a
single-byte character set; the decoded string is modelled as its byte list. -/
def z20 (b : List Nat) (pos : Nat) : List Nat :=
  dropTrailing 0 ((b.drop pos).take 20)

/-- Truncation at the first zero byte, as worded by the specification for
z20 fields (spec-side definition, to be compared with z20). -/
def truncAtFirstZero (l : List Nat) : List Nat := l.takeWhile (· ≠ 0)

/-- Modelled from the spec: the encode direction of the record table codec
(RecordLayout.write, referenced from yamltosf2.js but absent under src/)
pads a fixed text field with zero bytes up to the fixed 20-byte width. -/
def writeZ20 (s : List Nat) : List Nat := s ++ List.replicate (20 - s.length) 0

/-- One generator row (RecordLayout.pgen: u2 sfGenOper, a2 genAmount). -/
structure GenRec where
  sfGenOper : Nat
  genAmount : Amount
  deriving Repr, DecidableEq

def parsePgenRow (b : List Nat) (pos : Nat) : GenRec :=
  { sfGenOper := readUInt16LE b pos, genAmount := a2 b (pos + 2) }

/-- RecordLayout.parse: fails on an empty or misaligned payload, otherwise
decodes consecutive fixed-width rows. -/
def parseRecords {α : Type} (rowLen : Nat) (rowParse : List Nat → Nat → α)
    (data : List Nat) : Option (List α) :=
  if data.length % rowLen ≠ 0 ∨ data.length = 0 then none
  else some ((List.range (data.length / rowLen)).map fun i => rowParse data (i * rowLen))

/-! ## Generator model (SF2.js class Generator) -/

/-- The 61-entry operator name table (Generator.names). -/
def genNames : List String :=
  ["startAddrsOffset", "endAddrsOffset", "startloopAddrsOffset",
   "endloopAddrsOffset", "startAddrsCoarseOffset", "modLfoToPitch",
   "vibLfoToPitch", "modEnvToPitch", "initialFilterFc", "initialFilterQ",
   "modLfoToFilterFc", "modEnvToFilterFc", "endAddrsCoarseOffset",
   "modLfoToVolume", "unused1", "chorusEffectsSend", "reverbEffectsSend",
   "pan", "unused2", "unused3", "unused4", "delayModLFO", "freqModLFO",
   "delayVibLFO", "freqVibLFO", "delayModEnv", "attackModEnv", "holdModEnv",
   "decayModEnv", "sustainModEnv", "releaseModEnv", "keynumToModEnvHold",
   "keynumToModEnvDecay", "delayVolEnv", "attackVolEnv", "holdVolEnv",
   "decayVolEnv", "sustainVolEnv", "releaseVolEnv", "keynumToVolEnvHold",
   "keynumToVolEnvDecay", "instrument", "reserved1", "keyRange", "velRange",
   "startloopAddrsCoarseOffset", "keynum", "velocity", "initialAttenuation",
   "reserved2", "endloopAddrsCoarseOffset", "coarseTune", "fineTune",
   "sampleID", "sampleModes", "reserved3", "scaleTuning", "exclusiveClass",
   "overridingRootKey", "unused5", "endOper"]

/-- Generator name: the names table entry, or (as for any falsy entry) the
decimal rendering of the operator code. -/
def genName (op : Nat) : String :=
  match genNames.get? op with
  | some s => if s = "" then toString op else s
  | none => toString op

inductive Kind where
  | index
  | range
  | substitution
  | sample
  | value
  deriving Repr, DecidableEq

/-- Generator.kind: the per-operator value interpretation. -/
def genKind (op : Nat) : Kind :=
  if op = 41 ∨ op = 53 then Kind.index
  else if op = 43 ∨ op = 44 then Kind.range
  else if op = 46 ∨ op = 47 then Kind.substitution
  else if op ∈ [0, 1, 2, 3, 4, 12, 45, 50, 54, 58, 57] then Kind.sample
  else Kind.value

/-- A decoded generator value (a Range object, an unsigned table index, or a
signed 16-bit number). -/
inductive GVal where
  | range : Int → Int → GVal
  | idx : Nat → GVal
  | num : Int → GVal
  deriving Repr, DecidableEq

/-- Generator.value: ranges for range kind, wAmount for index kind,
shAmount otherwise. -/
def genValue (g : GenRec) : GVal :=
  match genKind g.sfGenOper with
  | Kind.range => GVal.range g.genAmount.rangeLo g.genAmount.rangeHi
  | Kind.index => GVal.idx g.genAmount.wAmount
  | _ => GVal.num g.genAmount.shAmount

/-! ## Theorems for claims C4, C9, C10 -/

/-- C4 counterexample: a keyRange generator whose first amount byte is 255
decodes to the pair (-1, 0); the claimed bound 0 ≤ low fails. -/
theorem C4_counterexample :
    genKind 43 = Kind.range ∧
    genValue (parsePgenRow [43, 0, 255, 0] 0) = GVal.range (-1) 0 ∧
    ¬ (0 : Int) ≤ -1 := by
  refine ⟨by decide, ?_, by decide⟩
  decide

/-- C4 amended: a generator with operator 43 or 44 decodes its two amount
bytes as a pair of signed bytes, each in the range -128..127, and
re-encoding each component as a two-complement byte reproduces the
original byte. -/
theorem C4_range_generator (op b0 b1 : Nat)
    (hop : op = 43 ∨ op = 44) (h0 : b0 < 256) (h1 : b1 < 256) :
    genValue (parsePgenRow [op, 0, b0, b1] 0) = GVal.range (i8val b0) (i8val b1) ∧
    -128 ≤ i8val b0 ∧ i8val b0 ≤ 127 ∧ -128 ≤ i8val b1 ∧ i8val b1 ≤ 127 ∧
    u8enc (i8val b0) = b0 ∧ u8enc (i8val b1) = b1 := by
  have hlt : op < 256 := by omega
  have hop16 : readUInt16LE [op, 0, b0, b1] 0 = op := by
    simp [readUInt16LE, decode2, u8]
  have hkind : genKind op = Kind.range := by
    rcases hop with h | h <;> subst h <;> decide
  refine ⟨?_, ?_, ?_, ?_, ?_, ?_, ?_⟩
  · simp only [parsePgenRow, genValue, hop16, hkind, a2]
    simp [readInt8, u8, i8val]
  · unfold i8val; split <;> omega
  · unfold i8val; split <;> omega
  · unfold i8val; split <;> omega
  · unfold i8val; split <;> omega
  · unfold u8enc i8val; split <;> omega
  · unfold u8enc i8val; split <;> omega

theorem C4_range_generator_witness :
    genValue (parsePgenRow [43, 0, 255, 127] 0) =
      GVal.range (i8val 255) (i8val 127) ∧
    -128 ≤ i8val 255 ∧ i8val 255 ≤ 127 ∧ -128 ≤ i8val 127 ∧ i8val 127 ≤ 127 ∧
    u8enc (i8val 255) = 255 ∧ u8enc (i8val 127) = 127 :=
  C4_range_generator 43 255 127 (Or.inl rfl) (by decide) (by decide)

/-- C9 counterexample: a 20-byte name field containing an interior zero byte
decodes with only its trailing zeros removed; truncation at the first zero
byte would instead keep only the first byte. -/
theorem C9_counterexample :
    z20 ([65, 0, 66] ++ List.replicate 17 0) 0 = [65, 0, 66] ∧
    truncAtFirstZero ([65, 0, 66] ++ List.replicate 17 0) = [65] ∧
    ([65, 0, 66] : List Nat) ≠ [65] := by
  refine ⟨?_, by decide, by decide⟩
  decide

/-- C9 amended: z20 strips the maximal trailing run of zero bytes (not
everything after the first zero byte), and re-encoding by padding with zero
bytes up to the fixed 20-byte width restores the field exactly. -/
theorem C9_z20_roundtrip (field : List Nat) (h : field.length = 20) :
    writeZ20 (z20 field 0) = field := by
  have htake : (field.drop 0).take 20 = field := by
    simp [List.take_of_length_le, h.le]
  have hlen := dropTrailing_length_le 0 field
  unfold writeZ20 z20
  rw [htake]
  have := dropTrailing_append 0 field
  rw [h] at this
  exact this

theorem C9_z20_roundtrip_witness :
    writeZ20 (z20 ([65, 0, 66] ++ List.replicate 17 0) 0) =
      [65, 0, 66] ++ List.replicate 17 0 :=
  C9_z20_roundtrip ([65, 0, 66] ++ List.replicate 17 0) (by decide)

/-- C10: a 4-byte generator row whose operator code is outside the 0-60
names table decodes without failure; its name is the decimal rendering of
the code, its kind falls back to the generic value kind, and its value is
the signed 16-bit reading of the amount. -/
theorem C10_unknown_operator (b : List Nat) (h4 : b.length = 4)
    (hop : 61 ≤ readUInt16LE b 0) :
    parseRecords 4 parsePgenRow b = some [parsePgenRow b 0] ∧
    genName (parsePgenRow b 0).sfGenOper = toString (readUInt16LE b 0) ∧
    genKind (parsePgenRow b 0).sfGenOper = Kind.value ∧
    genValue (parsePgenRow b 0) = GVal.num (readInt16LE b 2) := by
  have hopdef : (parsePgenRow b 0).sfGenOper = readUInt16LE b 0 := rfl
  have hkind : genKind (readUInt16LE b 0) = Kind.value := by
    unfold genKind
    rw [if_neg (by omega), if_neg (by omega), if_neg (by omega), if_neg ?_]
    intro hmem
    simp only [List.mem_cons, List.not_mem_nil, or_false] at hmem
    omega
  refine ⟨?_, ?_, ?_, ?_⟩
  · unfold parseRecords
    rw [if_neg (by omega)]
    rw [h4]
    norm_num [List.range_succ]
  · rw [hopdef]
    unfold genName
    have : genNames.get? (readUInt16LE b 0) = none := by
      apply List.get?_eq_none.2
      have : genNames.length = 61 := by rfl
      omega
    rw [this]
  · rw [hopdef]; exact hkind
  · unfold genValue
    rw [hopdef, hkind]
    rfl

theorem C10_unknown_operator_witness :
    parseRecords 4 parsePgenRow [61, 0, 5, 0] =
      some [parsePgenRow [61, 0, 5, 0] 0] ∧
    genName (parsePgenRow [61, 0, 5, 0] 0).sfGenOper =
      toString (readUInt16LE [61, 0, 5, 0] 0) ∧
    genKind (parsePgenRow [61, 0, 5, 0] 0).sfGenOper = Kind.value ∧
    genValue (parsePgenRow [61, 0, 5, 0] 0) = GVal.num (readInt16LE [61, 0, 5, 0] 2) :=
  C10_unknown_operator [61, 0, 5, 0] (by decide) (by decide)

/-! ## Zone model (SF2.js SF2._localZones)

The source turns every bag zone into an object holding its generator list
plus one property per generator name (later generators overwrite earlier
ones).  The property map is modelled as an association list whose lookup
returns the value of the last generator with the given name; the gens and
mods keys, which are present on every zone object and therefore never
transferred by inheritance, are kept separately.  Resolution replaces the
index stored under the terminal reference name by the linked record; the
model keeps the index, since only lookup success matters here. -/

structure SrcZone where
  gens : List GenRec
  deriving Repr, DecidableEq

abbrev Props := List (String × GVal)

def zoneProps (z : SrcZone) : Props :=
  (z.gens.map fun g => (genName g.sfGenOper, genValue g)).reverse

def hasProp (p : Props) (k : String) : Bool := (p.lookup k).isSome

/-- Inheritance step of _localZones: every property of the global zone that
is absent from the local zone is copied onto the local zone. -/
def inheritProps (glob : Props) (z : Props) : Props :=
  z ++ glob.filter fun q => ! hasProp z q.1

inductive LZErr where
  | unexpectedGlobalZone
  | unresolvedLink
  deriving Repr, DecidableEq

deriving instance DecidableEq for Except

/-- Sequential mapping in Except, stopping at the first error (the
behaviour of the throwing for-loops of the source). -/
def mapE {α β ε : Type} (f : α → Except ε β) : List α → Except ε (List β)
  | [] => Except.ok []
  | x :: xs => f x >>= fun y => (mapE f xs).map fun ys => y :: ys

/-- The per-zone resolution step of _localZones: a missing terminal
reference property throws Unexpected global zone; a reference whose row
index has no entry in the linked table throws Failed to link. -/
def resolveZone (lk : String) (linkLen : Nat) (z : Props) : Except LZErr Props :=
  match z.lookup lk with
  | none => Except.error LZErr.unexpectedGlobalZone
  | some (GVal.idx i) =>
      if i < linkLen then Except.ok z else Except.error LZErr.unresolvedLink
  | some _ => Except.error LZErr.unresolvedLink

/-- SF2._localZones: decide whether the first zone is global (by the
presence of the terminal reference property anywhere in it), inherit the
global properties into the remaining zones, then resolve each zone. -/
def localZones (zones : List SrcZone) (lk : String) (linkLen : Nat) :
    Except LZErr (List Props) :=
  match zones.map zoneProps with
  | [] => Except.ok []
  | z0 :: rest =>
      if hasProp z0 lk then
        mapE (resolveZone lk linkLen) (z0 :: rest)
      else
        mapE (resolveZone lk linkLen) (rest.map (inheritProps z0))

/-- The condition worded by the claim: the last generator of the zone is
not the terminal reference generator. -/
def lastGenName (z : SrcZone) : Option String :=
  z.gens.getLast?.map fun g => genName g.sfGenOper

theorem lookup_isSome_iff (l : Props) (k : String) :
    (l.lookup k).isSome = true ↔ ∃ p ∈ l, p.1 = k := by
  induction l with
  | nil => simp [List.lookup]
  | cons p t ih =>
    obtain ⟨a, v⟩ := p
    by_cases h : k = a
    · subst h; simp [List.lookup]
    · have hb : (k == a) = false := beq_eq_false_iff_ne.mpr h
      simp only [List.lookup, hb, ih]
      constructor
      · rintro ⟨p, hp, hk⟩
        exact ⟨p, List.mem_cons_of_mem _ hp, hk⟩
      · rintro ⟨p, hp, hk⟩
        rcases List.mem_cons.mp hp with rfl | hp2
        · exact absurd hk.symm h
        · exact ⟨p, hp2, hk⟩

theorem zoneProps_hasProp (z : SrcZone) (k : String) :
    hasProp (zoneProps z) k = true ↔ ∃ g ∈ z.gens, genName g.sfGenOper = k := by
  unfold hasProp zoneProps
  rw [lookup_isSome_iff]
  constructor
  · rintro ⟨p, hp, hk⟩
    rw [List.mem_reverse, List.mem_map] at hp
    obtain ⟨g, hg, rfl⟩ := hp
    exact ⟨g, hg, hk⟩
  · rintro ⟨g, hg, hk⟩
    exact ⟨(genName g.sfGenOper, genValue g),
      List.mem_reverse.mpr (List.mem_map.mpr ⟨g, hg, rfl⟩), hk⟩

theorem lookup_append (l₁ l₂ : Props) (k : String) :
    (l₁ ++ l₂).lookup k =
      match l₁.lookup k with
      | some v => some v
      | none => l₂.lookup k := by
  induction l₁ with
  | nil => simp [List.lookup]
  | cons p t ih =>
    obtain ⟨a, v⟩ := p
    by_cases h : k = a
    · subst h; simp [List.lookup]
    · have hb : (k == a) = false := beq_eq_false_iff_ne.mpr h
      simp [List.lookup, hb, ih]

theorem lookup_filter_pos (pr : String → Bool) (k : String) (hk : pr k = true)
    (l : Props) : (l.filter fun q => pr q.1).lookup k = l.lookup k := by
  induction l with
  | nil => rfl
  | cons p t ih =>
    obtain ⟨a, v⟩ := p
    by_cases h : k = a
    · subst h; simp [List.filter, hk, List.lookup]
    · have hb : (k == a) = false := beq_eq_false_iff_ne.mpr h
      cases hpa : pr a with
      | true => simp [List.filter, hpa, List.lookup, hb, ih]
      | false => simp [List.filter, hpa, List.lookup, hb, ih]

theorem lookup_filter_none (pr : String → Bool) (k : String) (l : Props)
    (h : l.lookup k = none) : (l.filter fun q => pr q.1).lookup k = none := by
  induction l with
  | nil => rfl
  | cons p t ih =>
    obtain ⟨a, v⟩ := p
    by_cases hka : k = a
    · subst hka; simp [List.lookup] at h
    · have hb : (k == a) = false := beq_eq_false_iff_ne.mpr hka
      simp only [List.lookup, hb] at h
      cases hpa : pr a with
      | true => simp [List.filter, hpa, List.lookup, hb, ih h]
      | false => simp [List.filter, hpa, ih h]

theorem inherit_lookup_some (g z : Props) (k : String) (v : GVal)
    (h : z.lookup k = some v) : (inheritProps g z).lookup k = some v := by
  unfold inheritProps
  rw [lookup_append, h]

theorem inherit_lookup_of_absent (g z : Props) (k : String)
    (hz : z.lookup k = none) : (inheritProps g z).lookup k = g.lookup k := by
  unfold inheritProps
  rw [lookup_append, hz]
  exact lookup_filter_pos (fun s => ! hasProp z s) k (by simp [hasProp, hz]) g

theorem mapE_ok_id {α ε : Type} (f : α → Except ε α) (l : List α)
    (h : ∀ x ∈ l, f x = Except.ok x) : mapE f l = Except.ok l := by
  induction l with
  | nil => rfl
  | cons x xs ih =>
    have hx := h x (List.mem_cons_self x xs)
    have hxs := ih fun y hy => h y (List.mem_cons_of_mem x hy)
    simp [mapE, hx, hxs, Bind.bind, Except.bind, Except.map]

theorem mapE_error {α ε : Type} (f : α → Except ε α) (e : ε) (l : List α)
    (hall : ∀ x ∈ l, f x = Except.ok x ∨ f x = Except.error e)
    (hex : ∃ x ∈ l, f x = Except.error e) : mapE f l = Except.error e := by
  induction l with
  | nil => obtain ⟨x, hx, _⟩ := hex; exact absurd hx (List.not_mem_nil x)
  | cons x xs ih =>
    rcases hall x (List.mem_cons_self x xs) with hx | hx
    · have hxs : ∃ y ∈ xs, f y = Except.error e := by
        obtain ⟨y, hy, hfy⟩ := hex
        rcases List.mem_cons.mp hy with rfl | hy2
        · rw [hx] at hfy; cases hfy
        · exact ⟨y, hy2, hfy⟩
      have := ih (fun y hy => hall y (List.mem_cons_of_mem x hy)) hxs
      simp [mapE, hx, this, Bind.bind, Except.bind, Except.map]
    · simp [mapE, hx, Bind.bind, Except.bind]

theorem mapE_append_error {α β ε : Type} (f : α → Except ε β) (e : ε)
    (pre post : List α) (x : α)
    (hpre : ∀ a ∈ pre, ∃ b, f a = Except.ok b) (hx : f x = Except.error e) :
    mapE f (pre ++ x :: post) = Except.error e := by
  induction pre with
  | nil => simp [mapE, hx, Bind.bind, Except.bind]
  | cons a t ih =>
    obtain ⟨b, hb⟩ := hpre a (List.mem_cons_self a t)
    have := ih fun y hy => hpre y (List.mem_cons_of_mem a hy)
    simp [mapE, hb, this, Bind.bind, Except.bind, Except.map]

theorem resolveZone_ok (lk : String) (n : Nat) (z : Props) (i : Nat)
    (h : z.lookup lk = some (GVal.idx i)) (hi : i < n) :
    resolveZone lk n z = Except.ok z := by
  unfold resolveZone; rw [h]; simp [hi]

theorem resolveZone_global (lk : String) (n : Nat) (z : Props)
    (h : z.lookup lk = none) :
    resolveZone lk n z = Except.error LZErr.unexpectedGlobalZone := by
  unfold resolveZone; rw [h]

theorem resolveZone_dangling (lk : String) (n : Nat) (z : Props) (i : Nat)
    (h : z.lookup lk = some (GVal.idx i)) (hi : n ≤ i) :
    resolveZone lk n z = Except.error LZErr.unresolvedLink := by
  unfold resolveZone; rw [h]; simp [Nat.not_lt.mpr hi]

/-! ### Concrete zones used by witnesses and counterexamples -/

def amt0 : Amount := ⟨0, 0, 0, 0⟩

def amt7 : Amount := ⟨0, 0, 7, 7⟩

/-- A zone holding only a keyRange generator. -/
def zKR : SrcZone := ⟨[⟨43, amt0⟩]⟩

/-- A zone whose last generator is the instrument reference (index 0). -/
def zInstLast : SrcZone := ⟨[⟨43, amt0⟩, ⟨41, amt0⟩]⟩

/-- A zone holding an instrument reference first and a keyRange last. -/
def zInstFirst : SrcZone := ⟨[⟨41, amt0⟩, ⟨43, amt0⟩]⟩

/-- A zone whose instrument reference points at row 7. -/
def zInstBad : SrcZone := ⟨[⟨41, amt7⟩]⟩

/-- C2 counterexample: a single-zone list whose first zone carries the
instrument generator first and keyRange last.  Its last generator is not
the terminal reference generator, so the claim says it is recognized as
global (which would make decoding return an empty local list), but
_localZones tests for the property anywhere in the zone and treats it as a
local zone. -/
theorem C2_counterexample :
    lastGenName zInstFirst ≠ some "instrument" ∧
    localZones [zInstFirst] "instrument" 1 = Except.ok [zoneProps zInstFirst] ∧
    ¬ ((localZones [zInstFirst] "instrument" 1 = Except.ok ([] : List Props)) ↔
        lastGenName zInstFirst ≠ some "instrument") := by
  refine ⟨by decide, by decide, ?_⟩
  decide

/-- C2 amended: the first zone of a nonempty zone list is extracted as the
global zone exactly when no generator named after the terminal reference
occurs anywhere in its generator list; when it is extracted, every
subsequent local zone inherits each property present in the global zone
and absent locally. -/
theorem C2_global_zone (z0 : SrcZone) (rest : List SrcZone) (lk : String) (n : Nat)
    (hres : ∀ z ∈ rest, ∃ i, i < n ∧ (zoneProps z).lookup lk = some (GVal.idx i)) :
    ((∀ g ∈ z0.gens, genName g.sfGenOper ≠ lk) →
      localZones (z0 :: rest) lk n =
        Except.ok (rest.map fun z => inheritProps (zoneProps z0) (zoneProps z)) ∧
      ∀ z : SrcZone, ∀ k v, (zoneProps z0).lookup k = some v →
        (zoneProps z).lookup k = none →
        (inheritProps (zoneProps z0) (zoneProps z)).lookup k = some v) ∧
    ((∃ g ∈ z0.gens, genName g.sfGenOper = lk) →
      (∃ i, i < n ∧ (zoneProps z0).lookup lk = some (GVal.idx i)) →
      localZones (z0 :: rest) lk n = Except.ok ((z0 :: rest).map zoneProps)) := by
  constructor
  · intro hdet
    have hnp : hasProp (zoneProps z0) lk = false := by
      rw [Bool.eq_false_iff]
      intro h
      obtain ⟨g, hg, hname⟩ := (zoneProps_hasProp z0 lk).1 h
      exact hdet g hg hname
    constructor
    · unfold localZones
      simp only [List.map_cons, hnp, Bool.false_eq_true, if_false]
      rw [List.map_map]
      have := mapE_ok_id (resolveZone lk n)
        (rest.map (inheritProps (zoneProps z0) ∘ zoneProps)) ?_
      · simpa [Function.comp] using this
      · intro w hw
        rw [List.mem_map] at hw
        obtain ⟨z, hz, rfl⟩ := hw
        obtain ⟨i, hi, hlook⟩ := hres z hz
        exact resolveZone_ok lk n _ i
          (inherit_lookup_some _ _ _ _ hlook) hi
    · intro z k v hg hz
      rw [inherit_lookup_of_absent _ _ _ hz]
      exact hg
  · rintro ⟨g, hg, hname⟩ ⟨i, hi, hlook⟩
    have hp : hasProp (zoneProps z0) lk = true :=
      (zoneProps_hasProp z0 lk).2 ⟨g, hg, hname⟩
    unfold localZones
    simp only [List.map_cons, hp, if_true]
    apply mapE_ok_id
    intro w hw
    rcases List.mem_cons.mp hw with rfl | hw2
    · exact resolveZone_ok lk n _ i hlook hi
    · rw [List.mem_map] at hw2
      obtain ⟨z, hz, rfl⟩ := hw2
      obtain ⟨j, hj, hlz⟩ := hres z hz
      exact resolveZone_ok lk n _ j hlz hj

theorem C2_global_zone_witness :
    localZones [zKR, zInstLast] "instrument" 1 =
      Except.ok [inheritProps (zoneProps zKR) (zoneProps zInstLast)] ∧
    localZones [zInstLast] "instrument" 1 = Except.ok [zoneProps zInstLast] := by
  constructor
  · refine ((C2_global_zone zKR [zInstLast] "instrument" 1 ?_).1 ?_).1
    · intro z hz
      have hzz : z = zInstLast := by simpa using hz
      subst hzz
      exact ⟨0, by decide, by decide⟩
    · intro g hg
      have hgg : g = (⟨43, amt0⟩ : GenRec) := by simpa [zKR] using hg
      subst hgg
      decide
  · refine (C2_global_zone zInstLast [] "instrument" 1 ?_).2 ?_ ?_
    · intro z hz
      exact absurd hz (List.not_mem_nil z)
    · exact ⟨⟨41, amt0⟩, by decide, by decide⟩
    · exact ⟨0, by decide, by decide⟩

/-- C3: during resolution of a zone list, a zone lacking the terminal
reference property at a non-first position makes _localZones throw
Unexpected global zone (provided every present reference is resolvable,
so that no earlier failure preempts it), and a reference whose row index
has no entry in the linked table makes it throw the link failure
(provided no misplaced global zone precedes it). -/
theorem C3_link_errors (z0 : SrcZone) (rest : List SrcZone) (lk : String) (n : Nat) :
    ((∀ z ∈ z0 :: rest, ∀ v, (zoneProps z).lookup lk = some v →
        ∃ i, i < n ∧ v = GVal.idx i) →
      (∃ z ∈ rest, (zoneProps z).lookup lk = none) →
      localZones (z0 :: rest) lk n = Except.error LZErr.unexpectedGlobalZone) ∧
    ((∀ z ∈ rest, ∃ i, (zoneProps z).lookup lk = some (GVal.idx i)) →
      ((zoneProps z0).lookup lk = none ∨
        ∃ i, (zoneProps z0).lookup lk = some (GVal.idx i)) →
      (∃ z ∈ z0 :: rest, ∃ i,
        (zoneProps z).lookup lk = some (GVal.idx i) ∧ n ≤ i) →
      localZones (z0 :: rest) lk n = Except.error LZErr.unresolvedLink) := by
  constructor
  · intro hvals hlack
    cases hp : hasProp (zoneProps z0) lk with
    | true =>
      unfold localZones
      simp only [List.map_cons, hp, if_true]
      apply mapE_error
      · intro w hw
        have hsrc : ∃ z ∈ z0 :: rest, w = zoneProps z := by
          rcases List.mem_cons.mp hw with rfl | hw2
          · exact ⟨z0, List.mem_cons_self z0 rest, rfl⟩
          · rw [List.mem_map] at hw2
            obtain ⟨z, hz, rfl⟩ := hw2
            exact ⟨z, List.mem_cons_of_mem z0 hz, rfl⟩
        obtain ⟨z, hz, rfl⟩ := hsrc
        cases hl : (zoneProps z).lookup lk with
        | none => exact Or.inr (resolveZone_global lk n _ hl)
        | some v =>
          obtain ⟨i, hi, rfl⟩ := hvals z hz v hl
          exact Or.inl (resolveZone_ok lk n _ i hl hi)
      · obtain ⟨z, hz, hnone⟩ := hlack
        exact ⟨zoneProps z,
          List.mem_cons_of_mem _ (List.mem_map.mpr ⟨z, hz, rfl⟩),
          resolveZone_global lk n _ hnone⟩
    | false =>
      have h0 : (zoneProps z0).lookup lk = none := by
        unfold hasProp at hp
        cases hl : (zoneProps z0).lookup lk
        · rfl
        · rw [hl] at hp; simp at hp
      unfold localZones
      simp only [List.map_cons, hp, Bool.false_eq_true, if_false]
      rw [List.map_map]
      apply mapE_error
      · intro w hw
        rw [List.mem_map] at hw
        obtain ⟨z, hz, rfl⟩ := hw
        cases hl : (zoneProps z).lookup lk with
        | none =>
          refine Or.inr (resolveZone_global lk n _ ?_)
          show (inheritProps (zoneProps z0) (zoneProps z)).lookup lk = none
          rw [inherit_lookup_of_absent _ _ _ hl]
          exact h0
        | some v =>
          obtain ⟨i, hi, rfl⟩ := hvals z (List.mem_cons_of_mem z0 hz) v hl
          exact Or.inl (resolveZone_ok lk n _ i
            (inherit_lookup_some _ _ _ _ hl) hi)
      · obtain ⟨z, hz, hnone⟩ := hlack
        refine ⟨(inheritProps (zoneProps z0) ∘ zoneProps) z,
          List.mem_map.mpr ⟨z, hz, rfl⟩, ?_⟩
        refine resolveZone_global lk n _ ?_
        show (inheritProps (zoneProps z0) (zoneProps z)).lookup lk = none
        rw [inherit_lookup_of_absent _ _ _ hnone]
        exact h0
  · intro hall hz0 hbad
    cases hp : hasProp (zoneProps z0) lk with
    | true =>
      have hz0some : ∃ i, (zoneProps z0).lookup lk = some (GVal.idx i) := by
        rcases hz0 with h | h
        · unfold hasProp at hp; rw [h] at hp; simp at hp
        · exact h
      unfold localZones
      simp only [List.map_cons, hp, if_true]
      apply mapE_error
      · intro w hw
        have hsrc : ∃ z ∈ z0 :: rest, w = zoneProps z ∧
            ∃ i, (zoneProps z).lookup lk = some (GVal.idx i) := by
          rcases List.mem_cons.mp hw with rfl | hw2
          · exact ⟨z0, List.mem_cons_self z0 rest, rfl, hz0some⟩
          · rw [List.mem_map] at hw2
            obtain ⟨z, hz, rfl⟩ := hw2
            exact ⟨z, List.mem_cons_of_mem z0 hz, rfl, hall z hz⟩
        obtain ⟨z, hz, rfl, i, hl⟩ := hsrc
        rcases Nat.lt_or_ge i n with hi | hi
        · exact Or.inl (resolveZone_ok lk n _ i hl hi)
        · exact Or.inr (resolveZone_dangling lk n _ i hl hi)
      · obtain ⟨z, hz, i, hl, hi⟩ := hbad
        rcases List.mem_cons.mp hz with rfl | hz2
        · exact ⟨zoneProps z, List.mem_cons_self _ _,
            resolveZone_dangling lk n _ i hl hi⟩
        · exact ⟨zoneProps z,
            List.mem_cons_of_mem _ (List.mem_map.mpr ⟨z, hz2, rfl⟩),
            resolveZone_dangling lk n _ i hl hi⟩
    | false =>
      have h0 : (zoneProps z0).lookup lk = none := by
        unfold hasProp at hp
        cases hl : (zoneProps z0).lookup lk
        · rfl
        · rw [hl] at hp; simp at hp
      unfold localZones
      simp only [List.map_cons, hp, Bool.false_eq_true, if_false]
      rw [List.map_map]
      apply mapE_error
      · intro w hw
        rw [List.mem_map] at hw
        obtain ⟨z, hz, rfl⟩ := hw
        obtain ⟨i, hl⟩ := hall z hz
        rcases Nat.lt_or_ge i n with hi | hi
        · exact Or.inl (resolveZone_ok lk n _ i
            (inherit_lookup_some _ _ _ _ hl) hi)
        · exact Or.inr (resolveZone_dangling lk n _ i
            (inherit_lookup_some _ _ _ _ hl) hi)
      · obtain ⟨z, hz, i, hl, hi⟩ := hbad
        rcases List.mem_cons.mp hz with rfl | hz2
        · rw [h0] at hl; cases hl
        · exact ⟨(inheritProps (zoneProps z0) ∘ zoneProps) z,
            List.mem_map.mpr ⟨z, hz2, rfl⟩,
            resolveZone_dangling lk n _ i
              (inherit_lookup_some _ _ _ _ hl) hi⟩

theorem C3_link_errors_witness :
    localZones [zInstLast, zKR] "instrument" 1 =
      Except.error LZErr.unexpectedGlobalZone ∧
    localZones [zInstLast, zInstBad] "instrument" 1 =
      Except.error LZErr.unresolvedLink := by
  constructor
  · refine (C3_link_errors zInstLast [zKR] "instrument" 1).1 ?_ ?_
    · intro z hz v hv
      rcases (by simpa using hz : z = zInstLast ∨ z = zKR) with rfl | rfl
      · have hl : (zoneProps zInstLast).lookup "instrument" =
            some (GVal.idx 0) := by decide
        rw [hl] at hv
        exact ⟨0, by decide, (Option.some.inj hv).symm⟩
      · have hl : (zoneProps zKR).lookup "instrument" = none := by decide
        rw [hl] at hv
        cases hv
    · exact ⟨zKR, by decide, by decide⟩
  · refine (C3_link_errors zInstLast [zInstBad] "instrument" 1).2 ?_ ?_ ?_
    · intro z hz
      have hzz : z = zInstBad := by simpa using hz
      subst hzz
      exact ⟨7, by decide⟩
    · exact Or.inr ⟨0, by decide⟩
    · exact ⟨zInstBad, by decide, 7, by decide, by decide⟩

/-! ## Sample sequence decoding (YamlGen.sdta, current variant)

Segments carry a (already sanitized) name and a point range into the shared
16-bit sample buffer; smpl is the buffer as a list of 16-bit points and
sm24 the optional low-order extension (one entry per point).  The rate and
channel-type fields of the source links play no role in segmentation and
are omitted.  The JavaScript array sort is stable, but deduplication makes
all start offsets distinct, so a plain insertion sort by start is
equivalent. -/

structure Seg where
  name : String
  start : Nat
  stop : Nat
  deriving Repr, DecidableEq

/-- The gap scan test of YamlGen.sdta: a point is non-zero if either the
16-bit stream or (when present) the 24-bit extension stream is non-zero. -/
def pointNonzero (smpl : List Nat) (sm24 : Option (List Nat)) (j : Nat) : Bool :=
  decide (smpl.getD j 0 ≠ 0) ||
    (match sm24 with
     | some lo => decide (lo.getD j 0 ≠ 0)
     | none => false)

def gapNonzero (smpl : List Nat) (sm24 : Option (List Nat)) (a b : Nat) : Bool :=
  (List.range' a (b - a)).any (pointNonzero smpl sm24)

/-- The adjacent-pair pass of YamlGen.sdta: clamp each end to the next
start, and when the gap up to the next start holds any non-zero point,
insert a hidden segment named after the previous one covering the range
from the clamped end up to the next start.  The inserted segment is
processed next by the source loop, which leaves it unchanged (its end
equals the next start and its gap is empty), so the recursion may move
directly to the next declared segment. -/
def scanGaps (smpl : List Nat) (sm24 : Option (List Nat)) : List Seg → List Seg
  | [] => []
  | [a] => [a]
  | a :: b :: rest =>
      let ac : Seg := { a with stop := min a.stop b.start }
      if gapNonzero smpl sm24 ac.stop b.start then
        ac :: ⟨a.name ++ "_", ac.stop, b.start⟩ :: scanGaps smpl sm24 (b :: rest)
      else
        ac :: scanGaps smpl sm24 (b :: rest)

/-- Deduplication by start offset, keeping the first header per offset. -/
def dedupSegs : List Seg → List Nat → List Seg
  | [], _ => []
  | s :: rs, seen =>
      if s.start ∈ seen then dedupSegs rs seen
      else s :: dedupSegs rs (s.start :: seen)

def insertSeg (s : Seg) : List Seg → List Seg
  | [] => [s]
  | t :: ts => if t.start ≤ s.start then t :: insertSeg s ts else s :: t :: ts

def sortSegs : List Seg → List Seg
  | [] => []
  | s :: rs => insertSeg s (sortSegs rs)

/-- The sequence set-up of YamlGen.sdta: deduplicate by start, sort by
start, prepend a synthetic zero-based segment when the first sample does
not start at offset 0, and append the end sentinel at the buffer length
(in points). -/
def buildSeq (rows : List Seg) (nPoints : Nat) : List Seg :=
  let s := sortSegs (dedupSegs rows [])
  let s2 := match s.head? with
    | some h => if h.start ≠ 0 then ⟨"_", 0, h.start⟩ :: s else s
    | none => s
  s2 ++ [⟨"_END_", nPoints, nPoints⟩]

/-- The full segment list produced by YamlGen.sdta before emission: the
sentinel is popped after the gap scan. -/
def sdtaSegs (rows : List Seg) (smpl : List Nat) (sm24 : Option (List Nat)) :
    List Seg :=
  (scanGaps smpl sm24 (buildSeq rows smpl.length)).dropLast

/-- The relation holding between consecutive segments after the gap scan:
they do not overlap and every point strictly between them is zero in both
streams. -/
def segChain (smpl : List Nat) (sm24 : Option (List Nat)) (x y : Seg) : Prop :=
  x.stop ≤ y.start ∧
    ∀ j, x.stop ≤ j → j < y.start → pointNonzero smpl sm24 j = false

theorem gapNonzero_false (smpl : List Nat) (sm24 : Option (List Nat))
    (x y : Nat) (h : gapNonzero smpl sm24 x y = false) :
    ∀ j, x ≤ j → j < y → pointNonzero smpl sm24 j = false := by
  intro j h1 h2
  unfold gapNonzero at h
  rw [List.any_eq_false] at h
  have hmem : j ∈ List.range' x (y - x) := by
    rw [List.mem_range'_1]
    omega
  have := h j hmem
  simpa using this

theorem scanGaps_head_start (smpl : List Nat) (sm24 : Option (List Nat))
    (b : Seg) (rest : List Seg) :
    (scanGaps smpl sm24 (b :: rest)).head?.map Seg.start = some b.start := by
  cases rest with
  | nil => simp [scanGaps]
  | cons c cs =>
    by_cases h : gapNonzero smpl sm24 (min b.stop c.start) c.start = true
    · simp [scanGaps, h]
    · rw [Bool.not_eq_true] at h
      simp [scanGaps, h]

theorem scanGaps_chain (smpl : List Nat) (sm24 : Option (List Nat)) :
    ∀ segs : List Seg, List.Chain' (segChain smpl sm24) (scanGaps smpl sm24 segs)
  | [] => by simp [scanGaps]
  | [a] => by simp [scanGaps]
  | a :: b :: rest => by
    have ih := scanGaps_chain smpl sm24 (b :: rest)
    have hstart : ∀ y : Seg,
        (scanGaps smpl sm24 (b :: rest)).head? = some y → y.start = b.start := by
      intro y hy
      have hh := scanGaps_head_start smpl sm24 b rest
      rw [hy] at hh
      simpa using hh
    by_cases h : gapNonzero smpl sm24 (min a.stop b.start) b.start = true
    · rw [show scanGaps smpl sm24 (a :: b :: rest) =
          { a with stop := min a.stop b.start } ::
            ⟨a.name ++ "_", min a.stop b.start, b.start⟩ ::
              scanGaps smpl sm24 (b :: rest) by simp [scanGaps, h]]
      rw [List.chain'_cons', List.chain'_cons']
      refine ⟨?_, ?_, ih⟩
      · intro y hy
        have hyy : (⟨a.name ++ "_", min a.stop b.start, b.start⟩ : Seg) = y := by
          simpa using hy
        subst hyy
        refine ⟨Nat.le_refl _, ?_⟩
        intro j h1 h2
        exact absurd (Nat.lt_of_le_of_lt h1 h2) (Nat.lt_irrefl _)
      · intro y hy
        have hys := hstart y (by simpa using hy)
        refine ⟨?_, ?_⟩
        · show b.start ≤ y.start
          rw [hys]
        · intro j h1 h2
          rw [hys] at h2
          exact absurd (Nat.lt_of_le_of_lt h1 h2) (Nat.lt_irrefl _)
    · rw [Bool.not_eq_true] at h
      rw [show scanGaps smpl sm24 (a :: b :: rest) =
          { a with stop := min a.stop b.start } ::
            scanGaps smpl sm24 (b :: rest) by simp [scanGaps, h]]
      rw [List.chain'_cons']
      refine ⟨?_, ih⟩
      intro y hy
      have hys := hstart y (by simpa using hy)
      refine ⟨?_, ?_⟩
      · show min a.stop b.start ≤ y.start
        rw [hys]
        exact Nat.min_le_right a.stop b.start
      · intro j h1 h2
        rw [hys] at h2
        exact gapNonzero_false smpl sm24 _ _ h j h1 h2

/-- C5 amended: the gap scan of YamlGen.sdta inserts, for a gap holding any
non-zero point, a hidden segment covering the entire gap from the clamped
end of the previous segment up to the next declared start (not merely the
non-zero sub-range), and consequently consecutive segments of its output
never overlap and every point left between two consecutive segments is
zero in both streams. -/
theorem C5_hidden_segments (smpl : List Nat) (sm24 : Option (List Nat)) :
    (∀ segs : List Seg,
      List.Chain' (segChain smpl sm24) (scanGaps smpl sm24 segs)) ∧
    (∀ (a b : Seg) (rest : List Seg),
      gapNonzero smpl sm24 (min a.stop b.start) b.start = true →
      scanGaps smpl sm24 (a :: b :: rest) =
        { a with stop := min a.stop b.start } ::
          ⟨a.name ++ "_", min a.stop b.start, b.start⟩ ::
            scanGaps smpl sm24 (b :: rest)) := by
  constructor
  · exact scanGaps_chain smpl sm24
  · intro a b rest h
    simp [scanGaps, h]

/-- Sample rows of the C5 and C6 scenario: two declared samples with a
three-point gap whose middle point is the only non-zero one. -/
def c5rows : List Seg := [⟨"s0", 0, 1⟩, ⟨"s1", 4, 5⟩]

def c5smpl : List Nat := [9, 0, 7, 0, 9]

/-- C5 counterexample: with non-zero data only at point 2 of the gap 1..4,
the decoder inserts the hidden segment over the whole gap (points 1 to 4);
no segment covering exactly the non-zero point 2..3 exists and no silent
gap remains on either side of the hidden segment. -/
theorem C5_counterexample :
    sdtaSegs c5rows c5smpl none =
      [⟨"s0", 0, 1⟩, ⟨"s0_", 1, 4⟩, ⟨"s1", 4, 5⟩] ∧
    ¬ ∃ s ∈ sdtaSegs c5rows c5smpl none, s.start = 2 ∧ s.stop = 3 := by
  refine ⟨by decide, ?_⟩
  decide

theorem C5_hidden_segments_witness :
    List.Chain' (segChain c5smpl none) (scanGaps c5smpl none (buildSeq c5rows 5)) ∧
    scanGaps c5smpl none (⟨"s0", 0, 1⟩ :: ⟨"s1", 4, 5⟩ :: [⟨"_END_", 5, 5⟩]) =
      { Seg.mk "s0" 0 1 with stop := min 1 4 } ::
        ⟨"s0" ++ "_", min 1 4, 4⟩ ::
          scanGaps c5smpl none (⟨"s1", 4, 5⟩ :: [⟨"_END_", 5, 5⟩]) :=
  ⟨(C5_hidden_segments c5smpl none).1 (buildSeq c5rows 5),
   (C5_hidden_segments c5smpl none).2 ⟨"s0", 0, 1⟩ ⟨"s1", 4, 5⟩
     [⟨"_END_", 5, 5⟩] (by decide)⟩

/-! ## Sample data encoding (yamltosf2.js YamlParse)

The encoder walks the sdta item list (wav payloads interleaved with gap
override markers), pushing each payload followed by a zero gap buffer of
the active width; a marker pops the trailing gap buffer and pushes one of
the new width, which also becomes the active width.  The JavaScript pop on
an empty array is a silent no-op, faithfully modelled by dropLast. -/

structure SampleMeta where
  length : Nat
  smpl : String
  sm24 : Option String
  deriving Repr, DecidableEq

inductive EncItem where
  | smp : SampleMeta → List Nat → EncItem
  | gap : Nat → EncItem
  deriving Repr, DecidableEq

inductive ConvErr where
  | lengthMismatch
  | sm24Unsupported
  | typeErrorUndefinedMeta
  | onlyPCM
  | onlyMono
  | wholeBytes
  | badBlockAlign
  | badDataRate
  | badBitDepth
  | no24bit
  | sampleLengthMismatch
  | pcmSubtypeOnly
  | checksumMismatch
  deriving Repr, DecidableEq

/-- The loop of YamlParse.sdta16 over (gaplen, samples, len, recorded
positions); len counts sample points (an Int, since a gap override smaller
than the active width decreases it), and each sample records meta.pos
before its length check, exactly as the source does (a thrown error
discards the state either way). -/
def sdta16Run : List EncItem → Nat → List (List Nat) → Int → List Int →
    Except ConvErr (Nat × List (List Nat) × Int × List Int)
  | [], g, ch, len, ps => Except.ok (g, ch, len, ps)
  | EncItem.gap n :: rest, g, ch, len, ps =>
      sdta16Run rest n (ch.dropLast ++ [List.replicate (2 * n) 0])
        (len + (n : Int) - (g : Int)) ps
  | EncItem.smp m d :: rest, g, ch, len, ps =>
      if d.length ≠ 2 * m.length then Except.error ConvErr.lengthMismatch
      else sdta16Run rest g (ch ++ [d, List.replicate (2 * g) 0])
        (len + (m.length : Int) + (g : Int)) (ps ++ [len])

/-- The 20-byte LIST sdta smpl header written by sdta16 (len in bytes). -/
def sdtaHead (len : Int) : List Nat :=
  [76, 73, 83, 84] ++ u32le (len + 12).toNat ++
    [115, 100, 116, 97] ++ [115, 109, 112, 108] ++ u32le len.toNat

/-- YamlParse.sdta16: run the loop from the initial default gap width 32,
then prepend the header (point count doubled into bytes) and concatenate
the buffers; the recorded positions are returned alongside. -/
def sdta16M (lst : List EncItem) : Except ConvErr (List Nat × List Int) :=
  (sdta16Run lst 32 [] 0 []).map fun st =>
    (sdtaHead (2 * st.2.2.1) ++ st.2.1.flatten, st.2.2.2)

/-- The per-item test of the sdta24/sdta16 dispatch in YamlParse.sdta:
the source evaluates s.meta.sdta.sm24; for a gap marker object s.meta is
undefined, so reading .sdta of it throws a TypeError. -/
def sdta24Pred : EncItem → Except ConvErr Bool
  | EncItem.gap _ => Except.error ConvErr.typeErrorUndefinedMeta
  | EncItem.smp m _ => Except.ok m.sm24.isSome

/-- Short-circuiting every() whose predicate may throw. -/
def everyM {α : Type} (p : α → Except ConvErr Bool) : List α → Except ConvErr Bool
  | [] => Except.ok true
  | x :: xs => p x >>= fun bx => if bx then everyM p xs else Except.ok false

/-- YamlParse.sdta: dispatch to the unimplemented 24-bit writer when every
item passes the sm24 test, otherwise to sdta16. -/
def sdtaDispatch (lst : List EncItem) : Except ConvErr (List Nat × List Int) :=
  everyM sdta24Pred lst >>= fun b =>
    if b then Except.error ConvErr.sm24Unsupported
    else sdta16M lst

/-- The marker-emission loop of the current YamlGen.sdta (unnamed source
part_002, lines 260-284) with each emitted segment name replaced by the
PCM payload of that segment, as the encoder later reads it back from the
wav file: a gap override is emitted after a segment exactly when the
following gap differs from the active default, and the override becomes
the new active default. -/
def decodeItems (g : Nat) : List (List Nat × Nat) → List EncItem
  | [] => []
  | (d, gp) :: rest =>
      EncItem.smp ⟨d.length / 2, "", none⟩ d ::
        (if gp ≠ g then EncItem.gap gp :: decodeItems gp rest
         else decodeItems g rest)

/-- The same loop as implemented by the legacy src/src/sf2toyaml.js
(lines 236-241): the following gap is compared against the constant 32 and
the active default is never updated. -/
def decodeItemsLegacy : List (List Nat × Nat) → List EncItem
  | [] => []
  | (d, gp) :: rest =>
      EncItem.smp ⟨d.length / 2, "", none⟩ d ::
        (if gp ≠ 32 then EncItem.gap gp :: decodeItemsLegacy rest
         else decodeItemsLegacy rest)

theorem decode_encode_gaps (ps : List (List Nat × Nat)) :
    ∀ (g : Nat) (ch : List (List Nat)) (len : Int) (poss : List Int),
      (∀ p ∈ ps, 2 ∣ (p.1 : List Nat).length) →
      ∃ g2 len2 poss2,
        sdta16Run (decodeItems g ps) g ch len poss =
          Except.ok (g2, ch ++ (ps.map fun p =>
            [p.1, List.replicate (2 * p.2) 0]).flatten, len2, poss2) := by
  induction ps with
  | nil =>
    intro g ch len poss _
    exact ⟨g, len, poss, by simp [decodeItems, sdta16Run]⟩
  | cons p rest ih =>
    obtain ⟨d, gp⟩ := p
    intro g ch len poss hev
    have hd2 : 2 ∣ d.length := hev (d, gp) (List.mem_cons_self _ _)
    have hdl : 2 * (d.length / 2) = d.length := Nat.mul_div_cancel' hd2
    have hrest : ∀ q ∈ rest, 2 ∣ (q.1 : List Nat).length :=
      fun q hq => hev q (List.mem_cons_of_mem _ hq)
    have hcond : ¬ (d.length ≠ 2 * ((⟨d.length / 2, "", none⟩ : SampleMeta).length)) := by
      show ¬ (d.length ≠ 2 * (d.length / 2))
      rw [hdl]
      exact fun hne => hne rfl
    by_cases hgp : gp = g
    · subst hgp
      rw [show decodeItems gp ((d, gp) :: rest) =
          EncItem.smp ⟨d.length / 2, "", none⟩ d :: decodeItems gp rest by
        simp [decodeItems]]
      rw [show sdta16Run (EncItem.smp ⟨d.length / 2, "", none⟩ d :: decodeItems gp rest)
            gp ch len poss =
          sdta16Run (decodeItems gp rest) gp (ch ++ [d, List.replicate (2 * gp) 0])
            (len + ((d.length / 2 : Nat) : Int) + (gp : Int)) (poss ++ [len]) by
        simp only [sdta16Run]
        rw [if_neg hcond]]
      obtain ⟨g2, l2, p2, hrun⟩ :=
        ih gp (ch ++ [d, List.replicate (2 * gp) 0])
          (len + ((d.length / 2 : Nat) : Int) + (gp : Int)) (poss ++ [len]) hrest
      refine ⟨g2, l2, p2, ?_⟩
      rw [hrun]
      simp [List.append_assoc]
    · rw [show decodeItems g ((d, gp) :: rest) =
          EncItem.smp ⟨d.length / 2, "", none⟩ d ::
            EncItem.gap gp :: decodeItems gp rest by
        simp [decodeItems, hgp]]
      rw [show sdta16Run (EncItem.smp ⟨d.length / 2, "", none⟩ d ::
              EncItem.gap gp :: decodeItems gp rest) g ch len poss =
          sdta16Run (decodeItems gp rest) gp
            ((ch ++ [d, List.replicate (2 * g) 0]).dropLast ++
              [List.replicate (2 * gp) 0])
            (len + ((d.length / 2 : Nat) : Int) + (g : Int) + (gp : Int) - (g : Int))
            (poss ++ [len]) by
        simp only [sdta16Run]
        rw [if_neg hcond]]
      have hdrop : (ch ++ [d, List.replicate (2 * g) 0]).dropLast ++
          [List.replicate (2 * gp) 0] = ch ++ [d, List.replicate (2 * gp) 0] := by
        rw [show ch ++ [d, List.replicate (2 * g) 0] =
            (ch ++ [d]) ++ [List.replicate (2 * g) 0] by simp]
        rw [List.dropLast_concat]
        simp
      rw [hdrop]
      obtain ⟨g2, l2, p2, hrun⟩ :=
        ih gp (ch ++ [d, List.replicate (2 * gp) 0])
          (len + ((d.length / 2 : Nat) : Int) + (g : Int) + (gp : Int) - (g : Int))
          (poss ++ [len]) hrest
      refine ⟨g2, l2, p2, ?_⟩
      rw [hrun]
      simp [List.append_assoc]

set_option maxRecDepth 8000

/-- C6: the gap machinery of the current decoder composed with the real
encoder loop: both start from the default width 32; decoding emits an
override exactly when the following gap differs from the active default
and the override becomes the new default, so the encoder rebuilds every
segment followed by a zero gap of exactly its original width.  The legacy
src/src/sf2toyaml.js variant compares each gap against the constant 32
instead: decoding gaps 64 then 32 through it makes the encoder place a
64-point gap where the original had 32. -/
theorem C6_gap_defaults :
    (∀ ps : List (List Nat × Nat), (∀ p ∈ ps, 2 ∣ (p.1 : List Nat).length) →
      ∃ g2 len2 poss2,
        sdta16Run (decodeItems 32 ps) 32 [] 0 [] =
          Except.ok (g2, (ps.map fun p =>
            [p.1, List.replicate (2 * p.2) 0]).flatten, len2, poss2)) ∧
    ((sdta16Run (decodeItemsLegacy [([1, 0], 64), ([2, 0], 32)]) 32 [] 0 []).map
        (fun st => st.2.1.flatten) =
      Except.ok (([1, 0] ++ List.replicate 128 0) ++
        ([2, 0] ++ List.replicate 128 0)) ∧
      (([1, 0] ++ List.replicate 128 0) ++ ([2, 0] ++ List.replicate 128 0) :
          List Nat) ≠
        ([1, 0] ++ List.replicate 128 0) ++ ([2, 0] ++ List.replicate 64 0)) := by
  refine ⟨?_, by decide, by decide⟩
  intro ps hev
  have h := decode_encode_gaps ps 32 [] 0 [] hev
  simpa using h

theorem C6_gap_defaults_witness :
    (sdta16Run (decodeItems 32 [([1, 0], 64), ([2, 0], 32)]) 32 [] 0 []).map
        (fun st => st.2.1) =
      Except.ok (([([1, 0], 64), ([2, 0], 32)].map fun p : List Nat × Nat =>
        [p.1, List.replicate (2 * p.2) 0]).flatten) := by
  obtain ⟨g2, l2, p2, hrun⟩ :=
    C6_gap_defaults.1 [([1, 0], 64), ([2, 0], 32)] (by decide)
  rw [hrun]
  rfl

def m1 : SampleMeta := ⟨1, "", none⟩

/-- C7: no GapSequencingError exists in the code.  An override before any
sample makes the sdta24/sdta16 dispatch evaluate s.meta.sdta on the marker
object, whose meta is undefined, so the conversion dies with a TypeError
rather than a gap sequencing error; two consecutive overrides after a
sample are accepted silently, the last one winning (the run succeeds and
yields a buffer whose single sample is followed by 48 points of silence). -/
theorem C7_no_gap_sequencing_error :
    sdtaDispatch [EncItem.gap 64, EncItem.smp m1 [1, 0]] =
      Except.error ConvErr.typeErrorUndefinedMeta ∧
    sdtaDispatch [EncItem.smp m1 [1, 0], EncItem.gap 64, EncItem.gap 48] =
      Except.ok (sdtaHead 98 ++ ([1, 0] ++ List.replicate 96 0), [0]) := by
  constructor
  · decide
  · decide

/-! ## WAV verification (yamltosf2.js YamlParse.readWav)

The fmt chunk payload and the data chunk payload are taken as byte lists
(their extraction from the wav RIFF container uses the container parser);
the content digest is abstracted as a parameter H, since every check is
independent of the internals of the hash function. -/

/-- The WMMEDIASUBTYPE_PCM GUID accepted for EXTENSIBLE wav files. -/
def pcmGuid : List Nat :=
  [1, 0, 0, 0, 0, 0, 16, 0, 128, 0, 0, 170, 0, 56, 155, 113]

/-- YamlParse.readWav: the validation chain in source order, ending with
the digest comparison against the declared checksum, before the payload is
handed to the sdta assembly. -/
def readWavM (H : List Nat → String) (meta : SampleMeta)
    (fmt payload : List Nat) : Except ConvErr (List Nat) :=
  if ¬ (readUInt16LE fmt 0 = 1 ∨ readUInt16LE fmt 0 = 65534) then
    Except.error ConvErr.onlyPCM
  else if readUInt16LE fmt 2 ≠ 1 then Except.error ConvErr.onlyMono
  else if readUInt16LE fmt 14 % 8 ≠ 0 then Except.error ConvErr.wholeBytes
  else if readUInt16LE fmt 12 ≠ readUInt16LE fmt 2 * (readUInt16LE fmt 14 / 8) then
    Except.error ConvErr.badBlockAlign
  else if readUInt32LE fmt 8 ≠ readUInt32LE fmt 4 * readUInt16LE fmt 12 then
    Except.error ConvErr.badDataRate
  else if ¬ (readUInt16LE fmt 14 = 16 ∨ readUInt16LE fmt 14 = 24) then
    Except.error ConvErr.badBitDepth
  else if readUInt16LE fmt 14 = 24 then Except.error ConvErr.no24bit
  else if meta.length * readUInt16LE fmt 12 ≠ payload.length then
    Except.error ConvErr.sampleLengthMismatch
  else if readUInt16LE fmt 0 = 65534 ∧ (fmt.drop 24).take 16 ≠ pcmGuid then
    Except.error ConvErr.pcmSubtypeOnly
  else if readUInt16LE fmt 14 = 16 ∧ H payload ≠ meta.smpl then
    Except.error ConvErr.checksumMismatch
  else Except.ok payload

/-- One entry of the sdta.yml list as read by riff_sdta: a sample name
resolved to its metadata, fmt chunk and data payload, or a gap marker. -/
inductive SdtaSrcItem where
  | wav : SampleMeta → List Nat → List Nat → SdtaSrcItem
  | gapMark : Nat → SdtaSrcItem

/-- The per-item step of riff_sdta: wav entries are read and verified,
gap markers pass through unchanged. -/
def srcToEnc (H : List Nat → String) : SdtaSrcItem → Except ConvErr EncItem
  | SdtaSrcItem.wav m fmt payload =>
      (readWavM H m fmt payload).map fun d => EncItem.smp m d
  | SdtaSrcItem.gapMark n => Except.ok (EncItem.gap n)

/-- YamlParse.riff_sdta: read and verify every wav, then assemble the
sdta chunk; any failed verification rejects the whole conversion before
any buffer is assembled. -/
def riffSdtaM (H : List Nat → String) (items : List SdtaSrcItem) :
    Except ConvErr (List Nat × List Int) :=
  mapE (srcToEnc H) items >>= sdtaDispatch

/-- C8: when a sample passes all wav format checks but its freshly
computed digest H payload differs from the declared checksum, and all
other samples pass verification, the whole sdta assembly fails with the
checksum mismatch error and produces no output. -/
theorem C8_checksum_guard (H : List Nat → String) (pre post : List SdtaSrcItem)
    (m : SampleMeta) (fmt payload : List Nat)
    (hpre : ∀ it ∈ pre, ∃ e, srcToEnc H it = Except.ok e)
    (_hpost : ∀ it ∈ post, ∃ e, srcToEnc H it = Except.ok e)
    (h1 : readUInt16LE fmt 0 = 1) (h2 : readUInt16LE fmt 2 = 1)
    (h3 : readUInt16LE fmt 14 = 16) (h4 : readUInt16LE fmt 12 = 2)
    (h5 : readUInt32LE fmt 8 = readUInt32LE fmt 4 * 2)
    (h6 : m.length * 2 = payload.length)
    (hH : H payload ≠ m.smpl) :
    riffSdtaM H (pre ++ SdtaSrcItem.wav m fmt payload :: post) =
      Except.error ConvErr.checksumMismatch ∧
    (riffSdtaM H (pre ++ SdtaSrcItem.wav m fmt payload :: post)).toOption =
      none := by
  have hwav : readWavM H m fmt payload =
      Except.error ConvErr.checksumMismatch := by
    unfold readWavM
    rw [h1, h2, h3, h4, h5, h6]
    norm_num [hH]
  have hsrc : srcToEnc H (SdtaSrcItem.wav m fmt payload) =
      Except.error ConvErr.checksumMismatch := by
    simp only [srcToEnc]
    rw [hwav]
    rfl
  have hmap := mapE_append_error (srcToEnc H) ConvErr.checksumMismatch
    pre post _ hpre hsrc
  constructor
  · unfold riffSdtaM
    rw [hmap]
    rfl
  · unfold riffSdtaM
    rw [hmap]
    rfl

/-- A well-formed 16-bit mono fmt chunk at 44100 Hz. -/
def fmt16 : List Nat :=
  [1, 0, 1, 0, 68, 172, 0, 0, 136, 88, 1, 0, 2, 0, 16, 0]

def mBad : SampleMeta := ⟨1, "00", none⟩

theorem C8_checksum_guard_witness :
    riffSdtaM (fun _ => "x") [SdtaSrcItem.wav mBad fmt16 [1, 0]] =
      Except.error ConvErr.checksumMismatch ∧
    (riffSdtaM (fun _ => "x") [SdtaSrcItem.wav mBad fmt16 [1, 0]]).toOption =
      none :=
  C8_checksum_guard (fun _ => "x") [] [] mBad fmt16 [1, 0]
    (fun it h => absurd h (List.not_mem_nil it))
    (fun it h => absurd h (List.not_mem_nil it))
    (by decide) (by decide) (by decide) (by decide) (by decide) (by decide)
    (by decide)

/-! ## Container model (SF2.js class RIFF; yamltosf2.js riffChunk/riffList)

Parsing follows the RIFF constructor: 4-byte identifier read in the ascii
encoding (Node masks each byte to 7 bits) and trimmed of trailing spaces,
little-endian 4-byte length, payload, and a skipped pad byte after an
odd-length payload.  A chunk whose trimmed identifier is RIFF or LIST is
parsed as a container: 4-byte type tag then nested chunks.  Serialization
follows riffChunk and riffList of yamltosf2.js: identifier and type tag
are written space-padded to 4 bytes, the length field is the payload
length, a container keyword is RIFF at the top level and LIST below, and
no pad byte is ever emitted.  Both functions carry a structural fuel that
only bounds the recursion depth; one unit is consumed per frame, so any
fuel above the byte length is enough. -/

inductive RChunk where
  | leaf : List Nat → List Nat → RChunk
  | node : Bool → List Nat → List RChunk → RChunk

def trimSp (l : List Nat) : List Nat := dropTrailing 32 l

def padSp4 (l : List Nat) : List Nat := l ++ List.replicate (4 - l.length) 32

def riffId : List Nat := [82, 73, 70, 70]

def listId : List Nat := [76, 73, 83, 84]

/-- The RIFF constructor loop (with chunk_RIFF / chunk_LIST dispatch). -/
def parseF : Nat → List Nat → Option (List RChunk)
  | 0, b => if b = [] then some [] else none
  | fuel + 1, b =>
      if b = [] then some []
      else if b.length < 8 then none
      else
        let len := readUInt32LE b 4
        if b.length < 8 + len then none
        else
          let id := trimSp ((b.take 4).map (· % 128))
          let data := (b.drop 8).take len
          let rest := b.drop (8 + len + len % 2)
          if id = riffId ∨ id = listId then
            if data.length < 4 then none
            else
              match parseF fuel (data.drop 4), parseF fuel rest with
              | some kids, some tail =>
                  some (RChunk.node (decide (id = listId))
                    (trimSp ((data.take 4).map (· % 128))) kids :: tail)
              | _, _ => none
          else
            (parseF fuel rest).map fun tail => RChunk.leaf id data :: tail

def parseRIFF (b : List Nat) : Option (List RChunk) := parseF (b.length + 1) b

/-- The serializer built from riffChunk (leaf frames) and riffList
(container frames), emitting RIFF for a top-level container and LIST for a
nested one, with no pad byte after an odd payload. -/
def serF : Nat → Bool → List RChunk → List Nat
  | 0, _, _ => []
  | _ + 1, _, [] => []
  | fuel + 1, top, RChunk.leaf id data :: cs =>
      padSp4 id ++ u32le data.length ++ data ++ serF fuel top cs
  | fuel + 1, top, RChunk.node _ typ kids :: cs =>
      let body := serF fuel false kids
      padSp4 (if top then riffId else listId) ++ u32le (4 + body.length) ++
        padSp4 typ ++ body ++ serF fuel top cs

/-- Well-formedness of a chunk sequence for the byte-exact round trip: the
frames are complete, identifier and type bytes are 7-bit, the length bytes
are bytes, every payload length is even, and a container keyword matches
its nesting level (RIFF at the top level, LIST below). -/
def wfF : Nat → Bool → List Nat → Bool
  | 0, _, b => decide (b = [])
  | fuel + 1, top, b =>
      if b = [] then true
      else
        decide (8 ≤ b.length) &&
        (b.take 4).all (fun v => decide (v < 128)) &&
        ((b.drop 4).take 4).all (fun v => decide (v < 256)) &&
        decide (8 + readUInt32LE b 4 ≤ b.length) &&
        decide (readUInt32LE b 4 % 2 = 0) &&
        (if trimSp (b.take 4) = riffId ∨ trimSp (b.take 4) = listId then
          decide (4 ≤ readUInt32LE b 4) &&
          (((b.drop 8).take (readUInt32LE b 4)).take 4).all
            (fun v => decide (v < 128)) &&
          (if trimSp (b.take 4) = riffId then top else !top) &&
          wfF fuel false (((b.drop 8).take (readUInt32LE b 4)).drop 4) &&
          wfF fuel top (b.drop (8 + readUInt32LE b 4))
        else
          wfF fuel top (b.drop (8 + readUInt32LE b 4)))

theorem padSp4_trimSp (l : List Nat) (h : l.length = 4) :
    padSp4 (trimSp l) = l := by
  unfold padSp4 trimSp
  have hd := dropTrailing_append 32 l
  rw [h] at hd
  exact hd

theorem map_mod128 (l : List Nat) (h : ∀ v ∈ l, v < 128) :
    l.map (· % 128) = l := by
  induction l with
  | nil => rfl
  | cons a t ih =>
    have ha : a % 128 = a := Nat.mod_eq_of_lt (h a (List.mem_cons_self a t))
    have ht := ih fun v hv => h v (List.mem_cons_of_mem a hv)
    simp [ha, ht]

theorem u32le_decode4 (l : List Nat) (h4 : l.length = 4)
    (hlt : ∀ v ∈ l, v < 256) : u32le (decode4 l) = l := by
  match l, h4 with
  | [a, b, c, d], _ =>
    have ha : a < 256 := hlt a (by simp)
    have hb : b < 256 := hlt b (by simp)
    have hc : c < 256 := hlt c (by simp)
    have hd : d < 256 := hlt d (by simp)
    simp only [u32le, decode4, List.getD_cons_zero, List.getD_cons_succ,
      List.cons.injEq, and_true]
    omega

theorem take_split_mid (l X : List Nat) (m n : Nat) :
    l.take m ++ ((l.drop m).take n ++ X) = l.take (m + n) ++ X := by
  rw [← List.append_assoc, ← List.take_add]

theorem append_take_drop_mid (l X : List Nat) (m : Nat) :
    l.take m ++ (l.drop m ++ X) = l ++ X := by
  rw [← List.append_assoc, List.take_append_drop]

theorem take8_take_drop (l : List Nat) (n : Nat) :
    l.take 8 ++ ((l.drop 8).take n ++ l.drop (8 + n)) = l := by
  have h1 : l.drop (8 + n) = (l.drop 8).drop n := by
    rw [List.drop_drop, Nat.add_comm]
  rw [h1, List.take_append_drop, List.take_append_drop]

theorem parse_ser_roundtrip :
    ∀ (fuel : Nat) (top : Bool) (b : List Nat), wfF fuel top b = true →
      ∃ cs, parseF fuel b = some cs ∧ serF fuel top cs = b := by
  intro fuel
  induction fuel with
  | zero =>
    intro top b hw
    simp only [wfF, decide_eq_true_eq] at hw
    subst hw
    exact ⟨[], rfl, rfl⟩
  | succ fuel ih =>
    intro top b hw
    by_cases hnil : b = []
    · subst hnil
      exact ⟨[], rfl, rfl⟩
    · simp only [wfF, if_neg hnil] at hw
      rw [Bool.and_eq_true, Bool.and_eq_true, Bool.and_eq_true,
        Bool.and_eq_true, Bool.and_eq_true] at hw
      obtain ⟨⟨⟨⟨⟨hA, hB⟩, hC⟩, hD⟩, hE⟩, hF⟩ := hw
      rw [decide_eq_true_eq] at hA hD hE
      set len := readUInt32LE b 4 with hlendef
      have hid128 : ∀ v ∈ b.take 4, v < 128 := by
        intro v hv
        have := List.all_eq_true.mp hB v hv
        simpa using this
      have hlen4b : ∀ v ∈ (b.drop 4).take 4, v < 256 := by
        intro v hv
        have := List.all_eq_true.mp hC v hv
        simpa using this
      have hmap : (b.take 4).map (· % 128) = b.take 4 := map_mod128 _ hid128
      have hdatalen : ((b.drop 8).take len).length = len := by
        simp only [List.length_take, List.length_drop]
        omega
      have htake4 : (b.take 4).length = 4 := by
        simp only [List.length_take]
        omega
      have hmid4 : ((b.drop 4).take 4).length = 4 := by
        simp only [List.length_take, List.length_drop]
        omega
      have hu32 : u32le len = (b.drop 4).take 4 := by
        rw [hlendef]
        exact u32le_decode4 _ hmid4 hlen4b
      have hrest2 : 8 + len + len % 2 = 8 + len := by omega
      by_cases hid : trimSp (b.take 4) = riffId ∨ trimSp (b.take 4) = listId
      · rw [if_pos hid] at hF
        rw [Bool.and_eq_true, Bool.and_eq_true, Bool.and_eq_true,
          Bool.and_eq_true] at hF
        obtain ⟨⟨⟨⟨hG, hH⟩, hTop⟩, hKids⟩, hRest⟩ := hF
        rw [decide_eq_true_eq] at hG
        have htyp : ∀ v ∈ ((b.drop 8).take len).take 4, v < 128 := by
          intro v hv
          have := List.all_eq_true.mp hH v hv
          simpa using this
        obtain ⟨kids, hpk, hsk⟩ := ih false (((b.drop 8).take len).drop 4) hKids
        obtain ⟨tail, hpt, hst⟩ := ih top (b.drop (8 + len)) hRest
        have htypmap : (((b.drop 8).take len).take 4).map (· % 128) =
            ((b.drop 8).take len).take 4 := map_mod128 _ htyp
        have hpe : parseF (fuel + 1) b =
            some (RChunk.node (decide (trimSp (b.take 4) = listId))
              (trimSp (((b.drop 8).take len).take 4)) kids :: tail) := by
          simp only [parseF]
          rw [if_neg hnil, if_neg (by omega : ¬ b.length < 8), ← hlendef,
            if_neg (by omega : ¬ b.length < 8 + len), hmap, if_pos hid,
            if_neg (by rw [hdatalen]; omega :
              ¬ ((b.drop 8).take len).length < 4),
            hrest2, htypmap, hpk, hpt]
        refine ⟨_, hpe, ?_⟩
        simp only [serF]
        rw [hsk, hst]
        have hbodylen : (((b.drop 8).take len).drop 4).length = len - 4 := by
          simp only [List.length_drop]
          omega
        rw [hbodylen, show 4 + (len - 4) = len by omega, hu32]
        have hkw : padSp4 (if top then riffId else listId) = b.take 4 := by
          rcases hid with hR | hL
          · have htop2 : top = true := by
              rw [if_pos hR] at hTop
              exact hTop
            rw [htop2, if_pos rfl, ← hR]
            exact padSp4_trimSp _ htake4
          · have hne : trimSp (b.take 4) ≠ riffId := by
              rw [hL]
              decide
            have htop2 : top = false := by
              rw [if_neg hne] at hTop
              simpa using hTop
            rw [htop2, if_neg (by simp), ← hL]
            exact padSp4_trimSp _ htake4
        have htyp4 : (((b.drop 8).take len).take 4).length = 4 := by
          simp only [List.length_take, List.length_drop]
          omega
        rw [hkw, padSp4_trimSp _ htyp4]
        have hfin : b.take 4 ++ ((b.drop 4).take 4 ++
            (((b.drop 8).take len).take 4 ++
              (((b.drop 8).take len).drop 4 ++ b.drop (8 + len)))) = b := by
          rw [append_take_drop_mid ((b.drop 8).take len) (b.drop (8 + len)) 4]
          rw [take_split_mid b _ 4 4]
          exact take8_take_drop b len
        simpa only [List.append_assoc] using hfin
      · rw [if_neg hid] at hF
        obtain ⟨tail, hpt, hst⟩ := ih top (b.drop (8 + len)) hF
        have hpe : parseF (fuel + 1) b =
            some (RChunk.leaf (trimSp (b.take 4)) ((b.drop 8).take len) ::
              tail) := by
          simp only [parseF]
          rw [if_neg hnil, if_neg (by omega : ¬ b.length < 8), ← hlendef,
            if_neg (by omega : ¬ b.length < 8 + len), hmap, if_neg hid,
            hrest2, hpt]
          rfl
        refine ⟨_, hpe, ?_⟩
        simp only [serF]
        rw [hst, hdatalen, hu32, padSp4_trimSp _ htake4]
        have hfin : b.take 4 ++ ((b.drop 4).take 4 ++
            ((b.drop 8).take len ++ b.drop (8 + len))) = b := by
          rw [take_split_mid b _ 4 4]
          exact take8_take_drop b len
        simpa only [List.append_assoc] using hfin

/-- C1 amended: for every container whose frames are complete, whose
identifier and type bytes are 7-bit, whose container keywords match their
nesting level and all of whose chunk payload lengths are even, serializing
the parse result through riffChunk/riffList reproduces the input byte for
byte.  The serializer emits the space-padded identifier, the little-endian
4-byte length and the raw payload, and never a pad byte. -/
theorem C1_serialize_parse (b : List Nat)
    (h : wfF (b.length + 1) true b = true) :
    ∃ cs, parseRIFF b = some cs ∧ serF (b.length + 1) true cs = b :=
  parse_ser_roundtrip (b.length + 1) true b h

/-- A container with an odd-length chunk: id abcd, length 1, payload 41,
pad byte 00 (the parser skips the pad byte, as the RIFF constructor does). -/
def oddB : List Nat := [97, 98, 99, 100, 1, 0, 0, 0, 65, 0]

/-- C1 counterexample: oddB is well formed for the parser (the claimed
round-trip law quantifies over it), but the serializer emits no pad byte
after the odd payload, so serializing the parse gives back 9 bytes, not
the original 10. -/
theorem C1_counterexample :
    parseRIFF oddB = some [RChunk.leaf [97, 98, 99, 100] [65]] ∧
    serF (oddB.length + 1) true [RChunk.leaf [97, 98, 99, 100] [65]] =
      [97, 98, 99, 100, 1, 0, 0, 0, 65] ∧
    serF (oddB.length + 1) true [RChunk.leaf [97, 98, 99, 100] [65]] ≠
      oddB := by
  refine ⟨rfl, rfl, ?_⟩
  decide

/-- A nested well-formed container: RIFF(sfbk){ test[4] }. -/
def wb : List Nat :=
  [82, 73, 70, 70, 16, 0, 0, 0, 115, 102, 98, 107,
   116, 101, 115, 116, 4, 0, 0, 0, 1, 2, 3, 4]

def wcs : List RChunk :=
  [RChunk.node false [115, 102, 98, 107]
    [RChunk.leaf [116, 101, 115, 116] [1, 2, 3, 4]]]

theorem C1_serialize_parse_witness :
    parseRIFF wb = some wcs ∧ serF (wb.length + 1) true wcs = wb := by
  obtain ⟨cs, hp, hs⟩ := C1_serialize_parse wb (by decide)
  have hpw : parseRIFF wb = some wcs := by rfl
  rw [hpw] at hp
  have hcs : wcs = cs := Option.some.inj hp
  subst hcs
  exact ⟨hpw, hs⟩
